import Mathlib

/-!
Shallow embedding of the execution-and-repair engine of
`backend/app/services/executor.py` (class `ExecutorService`) together with the
history-selection logic of `backend/app/agents/code_adaptor.py`
(`CodeAdaptationAgent.fix_code`).

Modelling conventions:
* The engine is an async generator; we model the full ordered sequence of
  yielded status events as a list, together with the filesystem footprint of
  the per-attempt temporary script files and some observation counters
  (number of child processes spawned, the temp paths created, and the
  `error_history` argument supplied at each `fix_code` call).
* `json.loads` from the Python standard library is abstracted as a parameter
  `jsonLoads : String → Option J`: `some j` models a successful parse to a
  JSON document `j`, `none` models `json.JSONDecodeError`.
* The collaborators (`ErrorAnalysisAgent.analyze_error`,
  `CodeAdaptationAgent.fix_code`), the write of the temporary file, the
  subprocess spawn, and the child's exit code and interleaved output lines
  are the environment of one job, indexed by the 1-based attempt number.
* `tempfile.NamedTemporaryFile` guarantees a fresh file name per call; the
  per-attempt path is modelled by the attempt index itself.
* The wall-clock duration of the child process is threaded through the
  environment (`duration`) but — exactly as in the source, which awaits
  `process.wait()` with no timeout — it is never consulted.
-/

set_option autoImplicit false

namespace Executor

/-- The `status` field of a yielded update dictionary. -/
inductive Status : Type
  | info
  | error
  | fixing
  | success
  | finalError
  deriving DecidableEq, Repr

/-- One yielded update. `message` is the `"message"` entry; the optional
fields model the entries of the `"data"` payload that the verification
observes (`report`, `code`, `stdout`, `stderr`); `none` stands for a missing
entry or Python `None`. -/
structure Event (J : Type) : Type where
  status : Status
  message : String
  report : Option J := none
  code : Option String := none
  stdout : Option String := none
  stderr : Option String := none
  deriving DecidableEq, Repr

/-- Source of one line arriving at the output multiplexer. -/
inductive Src : Type
  | stdout
  | stderr
  deriving DecidableEq, Repr

/-- Result of one child-process run: the interleaved raw lines returned by
`stream.readline()` on the two pipes (already decoded), in arrival order,
and the exit code returned by `process.wait()`. -/
structure RunResult : Type where
  items : List (Src × String)
  exitCode : Int
  deriving DecidableEq, Repr

/-- Outcome of the "write code to file" step of one attempt
(`tempfile.NamedTemporaryFile` + `f.write`):
either both succeed, or `NamedTemporaryFile` itself raises (no file is
created), or `f.write` raises after the file was already created on disk
(the file is created with `delete=False`, so it persists). -/
inductive WriteOutcome : Type
  | ok
  | failNoFile (msg : String)
  | failAfterCreate (msg : String)
  deriving DecidableEq, Repr

/-- One entry of `error_history` (appended in `execute_code` after a failed
attempt): attempt index, last-500-characters error text, diagnosis summary. -/
structure HistEntry : Type where
  attempt : Nat
  error : String
  summary : String
  deriving DecidableEq, Repr

/-- The environment of one job: everything outside the engine's own control
flow, indexed by the 1-based attempt number. -/
structure Env (J : Type) : Type where
  /-- Abstraction of Python `json.loads`: `some j` = parses to document `j`. -/
  jsonLoads : String → Option J
  /-- `some m` models `ErrorAnalysisAgent(llm_service)` raising at startup. -/
  startupError : Option String := none
  /-- Outcome of writing the temp script file on the given attempt. -/
  write : Nat → WriteOutcome
  /-- `some m` models `asyncio.create_subprocess_exec` raising. -/
  spawn : Nat → Option String
  /-- The child-process run of the given attempt. -/
  run : Nat → RunResult
  /-- Wall-clock duration of the child run, in abstract time units.  The
  source never consults any clock or timeout for the child, so this field is
  never read by the model of `execute_code`. -/
  duration : Nat → Nat
  /-- Number of heartbeat updates yielded while `analyze_error` is in flight. -/
  diagHeartbeats : Nat → Nat
  /-- `analyze_error` result: `.ok s` = returned summary, `.error m` = raised. -/
  diagnose : Nat → Except String String
  /-- Number of heartbeat updates yielded while `fix_code` is in flight. -/
  fixHeartbeats : Nat → Nat
  /-- `fix_code` result: `.ok c` = returned replacement code, `.error m` = raised. -/
  fix : Nat → Except String String
  /-- Whether `os.remove(temp_file_path)` in the `finally` block raises. -/
  removeFails : Nat → Bool

/-- Python `s[-n:]`. -/
def tailChars (n : Nat) (s : String) : String :=
  String.mk (s.data.drop (s.data.length - n))

/-- Python `str.rstrip()` with no argument: drop trailing whitespace. -/
def rstrip (s : String) : String :=
  String.mk ((s.data.reverse.dropWhile Char.isWhitespace).reverse)

/-- The literal `"{}"` substituted for the last stdout line when no stdout
line was captured (`stdout_chunks[-1] if stdout_chunks else "{}"`). -/
def emptyObjLit : String := "\x7b\x7d"

/-- State threaded through the two `stream_reader` tasks and the merge
queue: the collected `stdout_chunks`, `stderr_chunks`, and the update
events put on `update_queue`, in order. -/
structure MuxState (J : Type) : Type where
  stdoutChunks : List String := []
  stderrChunks : List String := []
  events : List (Event J) := []
  deriving DecidableEq, Repr

/-- One iteration of `stream_reader` on one raw line: decode+`rstrip()`;
drop the line if it is empty after stripping; a stderr line is recorded and
emitted with the `[STDERR] ` tag; a stdout line is recorded, and emitted as
an `info` event only if `json.loads` fails on it (the final JSON report is
deliberately not logged as `info`). -/
def streamReaderStep {J : Type} (jsonLoads : String → Option J)
    (st : MuxState J) (item : Src × String) : MuxState J :=
  let lineStr := rstrip item.2
  if lineStr = "" then st
  else
    match item.1 with
    | Src.stderr =>
        { st with
          stderrChunks := st.stderrChunks ++ [lineStr],
          events := st.events ++
            [{ status := Status.info, message := "[STDERR] " ++ lineStr }] }
    | Src.stdout =>
        let st1 := { st with stdoutChunks := st.stdoutChunks ++ [lineStr] }
        match jsonLoads lineStr with
        | some _ => st1
        | none =>
            { st1 with
              events := st1.events ++
                [{ status := Status.info, message := lineStr }] }

/-- The output multiplexer: both `stream_reader` tasks run to end-of-data
and the main loop drains `update_queue`; the queue preserves arrival order,
so the whole arrangement is a fold of `streamReaderStep` over the arrival
sequence. -/
def multiplex {J : Type} (jsonLoads : String → Option J)
    (items : List (Src × String)) : MuxState J :=
  items.foldl (streamReaderStep jsonLoads) {}

/-- Result extraction (`execute_code`, zero-exit branch): parse the last
captured stdout line, with the literal `"{}"` standing in when no stdout
line was captured. -/
def reportOf {J : Type} (jsonLoads : String → Option J)
    (chunks : List String) : Option J :=
  jsonLoads (chunks.getLastD emptyObjLit)

/-- The `finally` block of one attempt: `os.remove` the per-attempt temp
file unless the removal itself raises (which is swallowed). -/
def cleanup {J : Type} (env : Env J) (a : Nat) (fs : List Nat) : List Nat :=
  if env.removeFails a then fs else fs.erase a

/-- Event: `"Execution attempt {attempt}/{max_retries + 1}..."`. -/
def attemptEvent {J : Type} (a mr : Nat) (c : String) : Event J :=
  { status := Status.info,
    message := "Execution attempt " ++ toString a ++ "/" ++ toString (mr + 1) ++ "...",
    code := some c }

/-- Event: `"Running pipeline script..."`. -/
def runningEvent {J : Type} (c : String) : Event J :=
  { status := Status.info, message := "Running pipeline script...", code := some c }

/-- Event: `"Failed to write temp file: ..."` (terminal). -/
def writeFailEvent {J : Type} (m : String) : Event J :=
  { status := Status.finalError, message := "Failed to write temp file: " ++ m }

/-- Event: `"System error: ..."` (terminal, from the catch-all handler). -/
def systemErrorEvent {J : Type} (m c : String) : Event J :=
  { status := Status.finalError, message := "System error: " ++ m,
    stdout := some "", stderr := some m, code := some c }

/-- Event: `"Pipeline failed. AI is analyzing the cause..."`. -/
def analyzingEvent {J : Type} (stderrS : String) : Event J :=
  { status := Status.info,
    message := "Pipeline failed. AI is analyzing the cause...",
    stderr := some stderrS }

/-- Heartbeat event yielded while `analyze_error` is in flight. -/
def diagHeartbeatEvent {J : Type} : Event J :=
  { status := Status.info, message := "AI is analyzing the error details..." }

/-- Event: `"AI is applying an automated fix..."`. -/
def fixingEvent {J : Type} : Event J :=
  { status := Status.fixing, message := "AI is applying an automated fix..." }

/-- Heartbeat event yielded while `fix_code` is in flight. -/
def fixHeartbeatEvent {J : Type} : Event J :=
  { status := Status.fixing,
    message := "AI is generating a fixed version of the code..." }

/-- Event: `"Fix applied. Retrying..."`. -/
def fixAppliedEvent {J : Type} (newCode : String) : Event J :=
  { status := Status.info, message := "Fix applied. Retrying...",
    code := some newCode }

/-- Event: `"Auto-fixer failed: ... Retrying with original code..."`. -/
def fixFailedEvent {J : Type} (m : String) : Event J :=
  { status := Status.error,
    message := "Auto-fixer failed: " ++ m ++ ". Retrying with original code..." }

/-- The diagnosis summary: `analyze_error`'s return value, or — when the
call raises — the fallback `"Pipeline execution failed. Error: " ++
stderr[-500:]`. -/
def diagSummary {J : Type} (env : Env J) (a : Nat) (stderrS : String) : String :=
  match env.diagnose a with
  | Except.ok s => s
  | Except.error _ => "Pipeline execution failed. Error: " ++ tailChars 500 stderrS

/-- The `error` event carrying the diagnosis summary. -/
def errorEvent {J : Type} (s stderrS : String) : Event J :=
  { status := Status.error, message := s, stderr := some stderrS }

/-- Event: `"Max retries reached. Execution failed."` (terminal). -/
def maxRetriesEvent {J : Type} (stdoutS stderrS c : String) : Event J :=
  { status := Status.finalError,
    message := "Max retries reached. Execution failed.",
    stdout := some stdoutS, stderr := some stderrS, code := some c }

/-- Event: `"Execution ended without reaching success state."` (the fallback
after the `while` loop; unreachable along normal control flow). -/
def fallbackEvent {J : Type} (c : String) : Event J :=
  { status := Status.finalError,
    message := "Execution ended without reaching success state.",
    code := some c }

/-- Event: `"Executor startup failed: ..."` (terminal). -/
def startupFailEvent {J : Type} (m c : String) : Event J :=
  { status := Status.finalError,
    message := "Executor startup failed: " ++ m, code := some c }

/-- The `success` event of the zero-exit branch, including the attempted
result extraction: the message depends on whether the last-line parse
succeeded, and `report` is the parsed document or `None`. -/
def successEvent {J : Type} (jsonLoads : String → Option J)
    (mux : MuxState J) (c : String) : Event J :=
  let stdoutS := String.intercalate "\n" mux.stdoutChunks
  let stderrS := String.intercalate "\n" mux.stderrChunks
  match reportOf jsonLoads mux.stdoutChunks with
  | some rep =>
      { status := Status.success, message := "Execution successful",
        stdout := some stdoutS, stderr := some stderrS,
        report := some rep, code := some c }
  | none =>
      { status := Status.success, message := "Execution finished (no JSON report)",
        stdout := some stdoutS, stderr := some stderrS, code := some c }

/-- The observable outcome of `execute_code`: the ordered event sequence,
the set of per-attempt temp files still on disk at the end, the number of
child processes spawned, the temp paths that were created, and the
`error_history` list supplied at each `fix_code` call, in call order. -/
structure ExecResult (J : Type) : Type where
  events : List (Event J)
  fs : List Nat
  spawns : Nat
  createdPaths : List Nat
  fixCalls : List (List HistEntry)
  deriving DecidableEq, Repr

/-- The body of `while attempt <= max_retries:` of `execute_code`.

`aPrev` is the value of `attempt` when the loop condition is checked;
`fuel` counts the remaining iterations allowed by the condition, so a call
satisfying `fuel = mr + 1 - aPrev` models the source loop exactly: `fuel = 0`
iff `attempt <= max_retries` is false, in which case control falls through to
the trailing fallback `final_error`. Inside an iteration `a = aPrev + 1` is
the incremented attempt counter. `c` is `current_code`, `hist` is
`error_history`, `fs` the set of temp files on disk. -/
def execLoop {J : Type} (env : Env J) (mr : Nat) :
    Nat → Nat → String → List HistEntry → List Nat → ExecResult J
  | 0, _, c, _, fs =>
      { events := [fallbackEvent c], fs := fs, spawns := 0,
        createdPaths := [], fixCalls := [] }
  | fuel + 1, aPrev, c, hist, fs =>
      let a := aPrev + 1
      let e1 : Event J := attemptEvent a mr c
      match env.write a with
      | WriteOutcome.failNoFile m =>
          { events := [e1, writeFailEvent m], fs := fs, spawns := 0,
            createdPaths := [], fixCalls := [] }
      | WriteOutcome.failAfterCreate m =>
          { events := [e1, writeFailEvent m], fs := fs ++ [a], spawns := 0,
            createdPaths := [a], fixCalls := [] }
      | WriteOutcome.ok =>
          let fs1 := fs ++ [a]
          match env.spawn a with
          | some m =>
              { events := [e1, runningEvent c, systemErrorEvent m c],
                fs := cleanup env a fs1, spawns := 0,
                createdPaths := [a], fixCalls := [] }
          | none =>
              let mux := multiplex env.jsonLoads (env.run a).items
              let stdoutS := String.intercalate "\n" mux.stdoutChunks
              let stderrS := String.intercalate "\n" mux.stderrChunks
              let base := e1 :: runningEvent c :: mux.events
              if (env.run a).exitCode = 0 then
                { events := base ++ [successEvent env.jsonLoads mux c],
                  fs := cleanup env a fs1, spawns := 1,
                  createdPaths := [a], fixCalls := [] }
              else
                let summary := diagSummary env a stderrS
                let hbD : List (Event J) :=
                  List.replicate (env.diagHeartbeats a) diagHeartbeatEvent
                let preFix := base ++ [analyzingEvent stderrS] ++ hbD ++
                  [errorEvent summary stderrS]
                let hist2 := hist ++ [⟨a, tailChars 500 stderrS, summary⟩]
                if a ≤ mr then
                  let hbF : List (Event J) :=
                    List.replicate (env.fixHeartbeats a) fixHeartbeatEvent
                  match env.fix a with
                  | Except.ok newCode =>
                      let rest := execLoop env mr fuel a newCode hist2 (cleanup env a fs1)
                      { events := preFix ++ [fixingEvent] ++ hbF ++
                          [fixAppliedEvent newCode] ++ rest.events,
                        fs := rest.fs, spawns := 1 + rest.spawns,
                        createdPaths := a :: rest.createdPaths,
                        fixCalls := hist2 :: rest.fixCalls }
                  | Except.error m =>
                      let rest := execLoop env mr fuel a c hist2 (cleanup env a fs1)
                      { events := preFix ++ [fixingEvent] ++ hbF ++
                          [fixFailedEvent m] ++ rest.events,
                        fs := rest.fs, spawns := 1 + rest.spawns,
                        createdPaths := a :: rest.createdPaths,
                        fixCalls := hist2 :: rest.fixCalls }
                else
                  { events := preFix ++ [maxRetriesEvent stdoutS stderrS c],
                    fs := cleanup env a fs1, spawns := 1,
                    createdPaths := [a], fixCalls := [] }

/-- `ExecutorService.execute_code`: the guarded construction of
`ErrorAnalysisAgent`, then the retry loop with `attempt = 0`,
`error_history = []`, and `max_retries + 1` permitted iterations. -/
def executeCode {J : Type} (env : Env J) (code : String) (maxRetries : Nat) :
    ExecResult J :=
  match env.startupError with
  | some m =>
      { events := [startupFailEvent m code], fs := [], spawns := 0,
        createdPaths := [], fixCalls := [] }
  | none => execLoop env maxRetries (maxRetries + 1) 0 code [] []

/-! ### `CodeAdaptationAgent.fix_code` history selection -/

/-- `previous_attempts = error_history[:-1]`: the failed attempts strictly
before the one currently being repaired (the executor appends the current
attempt's entry before calling `fix_code`, so it is the last element). -/
def previousAttempts (h : List HistEntry) : List HistEntry :=
  h.dropLast

/-- The history entries actually included in the repair prompt's
`PREVIOUS FAILED ATTEMPTS` section: nothing unless more than one entry was
supplied, else `previous_attempts[-3:] if len(previous_attempts) > 3 else
previous_attempts`. -/
def recentHistory (h : List HistEntry) : List HistEntry :=
  if 1 < h.length then
    let p := previousAttempts h
    if 3 < p.length then p.drop (p.length - 3) else p
  else []

/-! ### `ExecutorService._run_with_heartbeat`, in abstract discrete time

The wrapper starts `func` on a worker thread and loops: while the task is
not done it yields one heartbeat update, then waits on the (shielded) task
with a timeout of `T` time units (the source hardcodes `timeout=5.0`
seconds); on expiry it loops again, and once the task is done it yields the
task's result and stops.  Time is discretized: the wrapped call completes
`d` units after start, the done-check at elapsed time `t` sees a completed
task iff `d ≤ t`, and one wait advances the clock to `min d (t + T)` (the
wait returns as soon as the task completes, at the latest after `T`). -/

/-- One element of the heartbeat wrapper's yielded sequence: a heartbeat
update, or the wrapped call's result. -/
inductive HBItem (α : Type) : Type
  | beat
  | result (a : α)
  deriving DecidableEq, Repr

/-- The `while not task.done():` loop of `_run_with_heartbeat`, from elapsed
time `t`; `fuel` bounds the number of iterations (any `fuel > d - t`
is enough, see `heartbeatLoop_shape`). -/
def heartbeatLoop {α : Type} (T d : Nat) (res : α) : Nat → Nat → List (HBItem α)
  | 0, _ => []
  | fuel + 1, t =>
      if d ≤ t then [HBItem.result res]
      else HBItem.beat :: heartbeatLoop T d res fuel (min d (t + T))

/-- `_run_with_heartbeat` for a wrapped call that completes `d` time units
after start and returns `res`, with liveness interval `T` (the source
instantiates `T = 5`). -/
def runWithHeartbeat {α : Type} (T d : Nat) (res : α) : List (HBItem α) :=
  heartbeatLoop T d res (d + 1) 0

/-- Number of heartbeat updates in a yielded sequence. -/
def countBeats {α : Type} (l : List (HBItem α)) : Nat :=
  l.countP (fun x => match x with | HBItem.beat => true | HBItem.result _ => false)

/-- Whether an event sequence ends with a well-formed terminal event. -/
def endsTerminal {J : Type} (E : List (Event J)) : Bool :=
  match E.getLast? with
  | some e => e.status = Status.success || e.status = Status.finalError
  | none => false

/-- Number of events with the given status. -/
def countStatus {J : Type} (s : Status) (E : List (Event J)) : Nat :=
  E.countP (fun e => decide (e.status = s))

/-- The status of the last event of a sequence, if any. -/
def lastStatus {J : Type} (E : List (Event J)) : Option Status :=
  E.getLast?.map (fun e => e.status)

/-- Whether a heartbeat-wrapper item is the wrapped call's result. -/
def isResult {α : Type} : HBItem α → Bool
  | HBItem.beat => false
  | HBItem.result _ => true

/-- The concrete stand-in for Python `json.loads` used by the concrete
environments below: it parses exactly the empty-object literal `"{}"`
(to the placeholder document `0`) and fails on every other string — which
is how `json.loads` behaves on the strings those environments feed it. -/
def jsonLoadsLit : String → Option Nat :=
  fun s => if s = emptyObjLit then some 0 else none

/-! ## Declarative form of the multiplexer (spec side, for refinement) -/

/-- Spec-side description of the event (if any) that one arriving raw line
contributes: blank-after-stripping lines contribute nothing; a stderr line
contributes one `info` event tagged `[STDERR] `; a stdout line contributes
one untagged `info` event unless it parses as JSON, in which case it is
suppressed. -/
def muxEventSpec {J : Type} (jsonLoads : String → Option J)
    (item : Src × String) : Option (Event J) :=
  let l := rstrip item.2
  if l = "" then none
  else
    match item.1 with
    | Src.stderr => some { status := Status.info, message := "[STDERR] " ++ l }
    | Src.stdout =>
        if (jsonLoads l).isSome then none
        else some { status := Status.info, message := l }

/-- Spec-side description of the stdout line (if any) that one arriving raw
line contributes to the captured stdout record. -/
def muxStdoutSpec (item : Src × String) : Option String :=
  let l := rstrip item.2
  if l = "" then none
  else match item.1 with | Src.stdout => some l | Src.stderr => none

/-- Spec-side description of the stderr line (if any) that one arriving raw
line contributes to the captured stderr record. -/
def muxStderrSpec (item : Src × String) : Option String :=
  let l := rstrip item.2
  if l = "" then none
  else match item.1 with | Src.stderr => some l | Src.stdout => none

/-! ## Abbreviations for the pieces of one loop iteration -/

/-- The multiplexer state produced by the run of the given attempt. -/
def muxOf {J : Type} (env : Env J) (a : Nat) : MuxState J :=
  multiplex env.jsonLoads (env.run a).items

/-- `stdout = "\n".join(stdout_chunks)` of the given attempt. -/
def stdoutStr {J : Type} (env : Env J) (a : Nat) : String :=
  String.intercalate "\n" (muxOf env a).stdoutChunks

/-- `stderr = "\n".join(stderr_chunks)` of the given attempt. -/
def stderrStr {J : Type} (env : Env J) (a : Nat) : String :=
  String.intercalate "\n" (muxOf env a).stderrChunks

/-- The `error_history` entry appended after the failed given attempt. -/
def histEntryOf {J : Type} (env : Env J) (a : Nat) : HistEntry :=
  ⟨a, tailChars 500 (stderrStr env a), diagSummary env a (stderrStr env a)⟩

/-- The events of one failed attempt up to and including the `error` event
carrying the diagnosis (attempt banner, run banner, multiplexed output,
analysis banner, analysis heartbeats, diagnosis). -/
def failEvents {J : Type} (env : Env J) (a mr : Nat) (c : String) : List (Event J) :=
  attemptEvent a mr c :: runningEvent c :: (muxOf env a).events ++
    [analyzingEvent (stderrStr env a)] ++
    List.replicate (env.diagHeartbeats a) diagHeartbeatEvent ++
    [errorEvent (diagSummary env a (stderrStr env a)) (stderrStr env a)]

/-- The list `[1, 2, ..., n]` of the first `n` attempt indices. -/
def attemptRange : Nat → List Nat
  | 0 => []
  | n + 1 => attemptRange n ++ [n + 1]

/-! ## Concrete environments for witnesses and counterexamples -/

/-- A job whose child exits 0 immediately with no output at all, with all
infrastructure steps succeeding. -/
def envBase : Env Nat :=
  { jsonLoads := jsonLoadsLit,
    write := fun _ => WriteOutcome.ok,
    spawn := fun _ => none,
    run := fun _ => ⟨[], 0⟩,
    duration := fun _ => 0,
    diagHeartbeats := fun _ => 0,
    diagnose := fun _ => Except.ok "diagnosis",
    fixHeartbeats := fun _ => 0,
    fix := fun _ => Except.ok "fixed",
    removeFails := fun _ => false }

/-- A job whose child always exits 1 after printing one stderr line. -/
def envFail : Env Nat :=
  { envBase with run := fun _ => ⟨[(Src.stderr, "boom")], 1⟩ }

/-- Like `envFail` but the repairer call always raises. -/
def envFixFail : Env Nat :=
  { envFail with fix := fun _ => Except.error "llm down" }

/-- A job whose temp-file write always raises before the file is created. -/
def envWriteFail : Env Nat :=
  { envBase with write := fun _ => WriteOutcome.failNoFile "disk error" }

/-- A job whose temp-file write always raises after the file was created. -/
def envLeak : Env Nat :=
  { envBase with write := fun _ => WriteOutcome.failAfterCreate "disk full" }

/-- A job whose only child-process run takes a very long wall-clock time
(and still exits 0 with no output). -/
def envSlow : Env Nat :=
  { envBase with duration := fun _ => 1000000000 }

/-! ## Helper lemmas -/

theorem muxState_ext {J : Type} (st : MuxState J) :
    st = { stdoutChunks := st.stdoutChunks, stderrChunks := st.stderrChunks,
           events := st.events } := by
  cases st; rfl

theorem foldl_streamReaderStep {J : Type} (jsonLoads : String → Option J) :
    ∀ (items : List (Src × String)) (st : MuxState J),
      items.foldl (streamReaderStep jsonLoads) st =
        { stdoutChunks := st.stdoutChunks ++ items.filterMap muxStdoutSpec,
          stderrChunks := st.stderrChunks ++ items.filterMap muxStderrSpec,
          events := st.events ++ items.filterMap (muxEventSpec jsonLoads) } := by
  intro items
  induction items with
  | nil =>
      intro st
      rw [List.foldl_nil, List.filterMap_nil, List.filterMap_nil,
        List.filterMap_nil, List.append_nil, List.append_nil, List.append_nil]
  | cons i items ih =>
      intro st
      obtain ⟨src, raw⟩ := i
      show List.foldl _ (streamReaderStep jsonLoads st (src, raw)) items = _
      rw [ih]
      by_cases hb : rstrip raw = ""
      · cases src <;>
          simp [streamReaderStep, muxStdoutSpec, muxStderrSpec, muxEventSpec, hb]
      · cases src with
        | stdout =>
            cases hj : jsonLoads (rstrip raw) <;>
              simp [streamReaderStep, muxStdoutSpec, muxStderrSpec, muxEventSpec,
                hb, hj]
        | stderr =>
            simp [streamReaderStep, muxStdoutSpec, muxStderrSpec, muxEventSpec, hb]

/-- The multiplexer, as a declarative per-line filter in arrival order. -/
theorem multiplex_eq {J : Type} (jsonLoads : String → Option J)
    (items : List (Src × String)) :
    multiplex jsonLoads items =
      { stdoutChunks := items.filterMap muxStdoutSpec,
        stderrChunks := items.filterMap muxStderrSpec,
        events := items.filterMap (muxEventSpec jsonLoads) } := by
  simpa [multiplex] using foldl_streamReaderStep jsonLoads items {}

theorem muxEventSpec_status {J : Type} {jsonLoads : String → Option J}
    {item : Src × String} {e : Event J}
    (h : muxEventSpec jsonLoads item = some e) : e.status = Status.info := by
  obtain ⟨src, raw⟩ := item
  by_cases hb : rstrip raw = ""
  · simp [muxEventSpec, hb] at h
  · cases src with
    | stdout =>
        by_cases hj : (jsonLoads (rstrip raw)).isSome
        · simp [muxEventSpec, hb, hj] at h
        · simp [muxEventSpec, hb, hj] at h
          simp [← h]
    | stderr =>
        simp [muxEventSpec, hb] at h
        simp [← h]

theorem mux_events_info {J : Type} (jsonLoads : String → Option J)
    (items : List (Src × String)) :
    ∀ e ∈ (multiplex jsonLoads items).events, e.status = Status.info := by
  intro e he
  rw [multiplex_eq] at he
  simp only [List.mem_filterMap] at he
  obtain ⟨item, _, hi⟩ := he
  exact muxEventSpec_status hi

theorem countStatus_nil {J : Type} (s : Status) :
    countStatus s ([] : List (Event J)) = 0 := rfl

theorem countStatus_cons {J : Type} (s : Status) (e : Event J) (E : List (Event J)) :
    countStatus s (e :: E) =
      countStatus s E + if e.status = s then 1 else 0 := by
  simp [countStatus, List.countP_cons]

theorem countStatus_append {J : Type} (s : Status) (E₁ E₂ : List (Event J)) :
    countStatus s (E₁ ++ E₂) = countStatus s E₁ + countStatus s E₂ := by
  simp [countStatus]

theorem countStatus_eq_zero {J : Type} {s : Status} {E : List (Event J)}
    (h : ∀ e ∈ E, e.status ≠ s) : countStatus s E = 0 := by
  simp only [countStatus, List.countP_eq_zero]
  intro e he
  simpa using h e he

theorem countStatus_replicate {J : Type} {s : Status} {e : Event J} (n : Nat)
    (h : e.status ≠ s) : countStatus s (List.replicate n e) = 0 := by
  refine countStatus_eq_zero ?_
  intro x hx
  rcases (List.mem_replicate.mp hx) with ⟨-, rfl⟩
  exact h

theorem endsTerminal_append {J : Type} {E₂ : List (Event J)} (E₁ : List (Event J))
    (h : endsTerminal E₂ = true) : endsTerminal (E₁ ++ E₂) = true := by
  have hne : E₂ ≠ [] := by
    intro hnil; rw [hnil] at h; simp [endsTerminal] at h
  unfold endsTerminal at h ⊢
  rw [List.getLast?_append_of_ne_nil E₁ hne]
  exact h

theorem endsTerminal_concat {J : Type} (E : List (Event J)) {e : Event J}
    (h : e.status = Status.success ∨ e.status = Status.finalError) :
    endsTerminal (E ++ [e]) = true := by
  unfold endsTerminal
  rw [List.getLast?_concat]
  rcases h with h | h <;> simp [h]

/-! ## Heartbeat wrapper lemmas -/

theorem heartbeatLoop_done {α : Type} (T d : Nat) (res : α) (fuel t : Nat)
    (h : d ≤ t) : countBeats (heartbeatLoop T d res fuel t) = 0 := by
  cases fuel with
  | zero => rfl
  | succ f => simp [heartbeatLoop, h, countBeats]

theorem heartbeatLoop_shape {α : Type} (T d : Nat) (res : α) (hT : 1 ≤ T) :
    ∀ fuel t, d - t < fuel →
      ∃ k, heartbeatLoop T d res fuel t =
        List.replicate k HBItem.beat ++ [HBItem.result res] := by
  intro fuel
  induction fuel with
  | zero => intro t h; omega
  | succ f ih =>
      intro t h
      by_cases hd : d ≤ t
      · exact ⟨0, by simp [heartbeatLoop, hd]⟩
      · have ht : t < d := Nat.lt_of_not_le hd
        have hstep : t + 1 ≤ min d (t + T) := by omega
        have hrec : d - min d (t + T) < f := by omega
        obtain ⟨k, hk⟩ := ih (min d (t + T)) hrec
        exact ⟨k + 1, by simp [heartbeatLoop, hd, hk, List.replicate_succ]⟩

theorem countBeats_replicate_concat {α : Type} (k : Nat) (res : α) :
    countBeats (List.replicate k HBItem.beat ++ [HBItem.result res]) = k := by
  simp [countBeats, List.countP_replicate]

theorem heartbeatLoop_beats_pos {α : Type} (T d : Nat) (res : α) :
    ∀ fuel t, d - t < fuel → t < d →
      1 ≤ countBeats (heartbeatLoop T d res fuel t) := by
  intro fuel t h ht
  cases fuel with
  | zero => omega
  | succ f =>
      have hd : ¬ d ≤ t := by omega
      simp [heartbeatLoop, hd, countBeats, List.countP_cons]

theorem heartbeatLoop_beats_le {α : Type} (T d : Nat) (res : α) :
    ∀ fuel t, countBeats (heartbeatLoop T d res fuel t) * T ≤ (d - t) + T := by
  intro fuel
  induction fuel with
  | zero => intro t; simp [heartbeatLoop, countBeats]
  | succ f ih =>
      intro t
      by_cases hd : d ≤ t
      · simp [heartbeatLoop, hd, countBeats]
      · have ht : t < d := Nat.lt_of_not_le hd
        by_cases hin : t + T ≤ d
        · have hmin : min d (t + T) = t + T := by omega
          have hih := ih (t + T)
          have hcons : countBeats (heartbeatLoop T d res (f + 1) t) =
              countBeats (heartbeatLoop T d res f (t + T)) + 1 := by
            simp [heartbeatLoop, hd, hmin, countBeats, List.countP_cons]
          have hmul : (countBeats (heartbeatLoop T d res f (t + T)) + 1) * T =
              countBeats (heartbeatLoop T d res f (t + T)) * T + T :=
            Nat.succ_mul _ _
          rw [hcons, hmul]
          omega
        · have hmin : min d (t + T) = d := by omega
          have hz : countBeats (heartbeatLoop T d res f d) = 0 :=
            heartbeatLoop_done T d res f d (Nat.le_refl d)
          have hcons : countBeats (heartbeatLoop T d res (f + 1) t) =
              countBeats (heartbeatLoop T d res f d) + 1 := by
            simp [heartbeatLoop, hd, hmin, countBeats, List.countP_cons]
          rw [hcons, hz]
          omega

theorem heartbeatLoop_beats_two {α : Type} (T d : Nat) (res : α) (hT : 1 ≤ T) :
    ∀ fuel t, d - t < fuel → t + T < d →
      2 ≤ countBeats (heartbeatLoop T d res fuel t) := by
  intro fuel t h htT
  cases fuel with
  | zero => omega
  | succ f =>
      have hd : ¬ d ≤ t := by omega
      have hmin : min d (t + T) = t + T := by omega
      have h1 : 1 ≤ countBeats (heartbeatLoop T d res f (t + T)) := by
        refine heartbeatLoop_beats_pos T d res f (t + T) (by omega) (by omega)
      have hcons : countBeats (heartbeatLoop T d res (f + 1) t) =
          countBeats (heartbeatLoop T d res f (t + T)) + 1 := by
        simp [heartbeatLoop, hd, hmin, countBeats, List.countP_cons]
      rw [hcons]
      omega

/-- Claim C8: the heartbeat wrapper `_run_with_heartbeat`, modelled in
abstract discrete time with liveness interval `T` (the source instantiates
`T = 5`) and a wrapped call completing after `d` units with result `res`:
the result is the final yielded item and is yielded exactly once; liveness
updates are emitted at most once per interval `T` (their number times `T`
never exceeds `d + T`); and if the call takes longer than `3 × T`, at least
2 liveness updates are observed before the result. -/
theorem c8_heartbeat {α : Type} (T d : Nat) (res : α) (hT : 1 ≤ T) :
    (runWithHeartbeat T d res).getLast? = some (HBItem.result res) ∧
    (runWithHeartbeat T d res).countP isResult = 1 ∧
    countBeats (runWithHeartbeat T d res) * T ≤ d + T ∧
    (3 * T < d → 2 ≤ countBeats (runWithHeartbeat T d res)) := by
  obtain ⟨k, hk⟩ := heartbeatLoop_shape T d res hT (d + 1) 0 (by omega)
  refine ⟨?_, ?_, ?_, ?_⟩
  · rw [runWithHeartbeat, hk, List.getLast?_concat]
  · rw [runWithHeartbeat, hk]
    simp [isResult, List.countP_replicate]
  · have := heartbeatLoop_beats_le T d res (d + 1) 0
    simpa [runWithHeartbeat] using this
  · intro h3
    refine heartbeatLoop_beats_two T d res hT (d + 1) 0 (by omega) (by omega)

/-- Witness for C8 at the source's interval `T = 5` and a call taking
`d = 16 > 3 × T` units. -/
theorem c8_heartbeat_witness :
    1 ≤ 5 ∧
    ((runWithHeartbeat 5 16 "r").getLast? = some (HBItem.result "r") ∧
     (runWithHeartbeat 5 16 "r").countP isResult = 1 ∧
     countBeats (runWithHeartbeat 5 16 "r") * 5 ≤ 16 + 5 ∧
     (3 * 5 < 16 → 2 ≤ countBeats (runWithHeartbeat 5 16 "r"))) :=
  ⟨by decide, c8_heartbeat 5 16 "r" (by decide)⟩

/-! ## Multiplexer claims -/

/-- Claim C6, counterexample: a stdout line consisting of the JSON document
`"{}"` is captured in `stdout_chunks` but produces no event at all — the
multiplexer does drop lines from the emitted event sequence (stdout lines
that parse as JSON), contradicting "neither duplicates nor drops any
line". -/
theorem c6_mux_counterexample :
    (multiplex jsonLoadsLit [(Src.stdout, emptyObjLit)]).events = [] ∧
    (multiplex jsonLoadsLit [(Src.stdout, emptyObjLit)]).stdoutChunks =
      [emptyObjLit] := by
  constructor <;> rfl

/-- Claim C6, amended: the multiplexer emits the lines of both streams in
arrival order, each tagged with its source (stderr lines carry the
`[STDERR] ` prefix), without duplicating any line and terminating only when
both inputs are exhausted — except that lines that are blank after trailing
whitespace is stripped are dropped entirely, and stdout lines that parse as
JSON are recorded in the captured stdout but suppressed from the event
sequence. Formally, the fold implementing the multiplexer equals the
declarative one-event-per-line filter of the arrival sequence. -/
theorem c6_mux_amended {J : Type} (jsonLoads : String → Option J)
    (items : List (Src × String)) :
    multiplex jsonLoads items =
      { stdoutChunks := items.filterMap muxStdoutSpec,
        stderrChunks := items.filterMap muxStderrSpec,
        events := items.filterMap (muxEventSpec jsonLoads) } :=
  multiplex_eq jsonLoads items

/-- Claim C10: a non-empty stdout line that parses as a JSON document is
appended to the captured stdout but yields no `info` event (it is
suppressed from the live stream), while remaining the candidate last line
for report extraction; every other non-empty stdout line yields exactly one
`info` event carrying the line. Stated over one `stream_reader` step from
an arbitrary intermediate state. -/
theorem c10_json_suppressed {J : Type} (jsonLoads : String → Option J)
    (st : MuxState J) (raw : String) (hne : rstrip raw ≠ "") :
    (∀ j, jsonLoads (rstrip raw) = some j →
      (streamReaderStep jsonLoads st (Src.stdout, raw)).events = st.events ∧
      (streamReaderStep jsonLoads st (Src.stdout, raw)).stdoutChunks =
        st.stdoutChunks ++ [rstrip raw] ∧
      reportOf jsonLoads
        (streamReaderStep jsonLoads st (Src.stdout, raw)).stdoutChunks = some j) ∧
    (jsonLoads (rstrip raw) = none →
      (streamReaderStep jsonLoads st (Src.stdout, raw)).events =
        st.events ++ [{ status := Status.info, message := rstrip raw }] ∧
      (streamReaderStep jsonLoads st (Src.stdout, raw)).stdoutChunks =
        st.stdoutChunks ++ [rstrip raw]) := by
  constructor
  · intro j hj
    refine ⟨?_, ?_, ?_⟩ <;>
      simp [streamReaderStep, hne, hj, reportOf, List.getLastD_concat]
  · intro hj
    constructor <;> simp [streamReaderStep, hne, hj]

/-- Witness for C10: the JSON line `"{}"` arriving on stdout. -/
theorem c10_json_suppressed_witness :
    (rstrip emptyObjLit ≠ "") ∧
    ((∀ j, jsonLoadsLit (rstrip emptyObjLit) = some j →
      (streamReaderStep jsonLoadsLit ⟨[], [], []⟩ (Src.stdout, emptyObjLit)).events = [] ∧
      (streamReaderStep jsonLoadsLit ⟨[], [], []⟩ (Src.stdout, emptyObjLit)).stdoutChunks =
        [] ++ [rstrip emptyObjLit] ∧
      reportOf jsonLoadsLit
        (streamReaderStep jsonLoadsLit ⟨[], [], []⟩ (Src.stdout, emptyObjLit)).stdoutChunks =
          some j) ∧
    (jsonLoadsLit (rstrip emptyObjLit) = none →
      (streamReaderStep jsonLoadsLit ⟨[], [], []⟩ (Src.stdout, emptyObjLit)).events =
        [] ++ [{ status := Status.info, message := rstrip emptyObjLit }] ∧
      (streamReaderStep jsonLoadsLit ⟨[], [], []⟩ (Src.stdout, emptyObjLit)).stdoutChunks =
        [] ++ [rstrip emptyObjLit])) :=
  ⟨by decide, c10_json_suppressed jsonLoadsLit ⟨[], [], []⟩ emptyObjLit (by decide)⟩

/-! ## One-iteration equations for `execLoop`, by branch (proved below,
used by every executor claim) -/

theorem step_writeFail {J : Type} (env : Env J) (mr f aPrev : Nat) (c : String)
    (hist : List HistEntry) (fs : List Nat) {m : String}
    (hw : env.write (aPrev + 1) = WriteOutcome.failNoFile m) :
    execLoop env mr (f + 1) aPrev c hist fs =
      { events := [attemptEvent (aPrev + 1) mr c, writeFailEvent m], fs := fs,
        spawns := 0, createdPaths := [], fixCalls := [] } := by
  simp [execLoop, hw]

theorem step_writeLeak {J : Type} (env : Env J) (mr f aPrev : Nat) (c : String)
    (hist : List HistEntry) (fs : List Nat) {m : String}
    (hw : env.write (aPrev + 1) = WriteOutcome.failAfterCreate m) :
    execLoop env mr (f + 1) aPrev c hist fs =
      { events := [attemptEvent (aPrev + 1) mr c, writeFailEvent m],
        fs := fs ++ [aPrev + 1], spawns := 0, createdPaths := [aPrev + 1],
        fixCalls := [] } := by
  simp [execLoop, hw]

theorem step_spawnFail {J : Type} (env : Env J) (mr f aPrev : Nat) (c : String)
    (hist : List HistEntry) (fs : List Nat) {m : String}
    (hw : env.write (aPrev + 1) = WriteOutcome.ok)
    (hsp : env.spawn (aPrev + 1) = some m) :
    execLoop env mr (f + 1) aPrev c hist fs =
      { events := [attemptEvent (aPrev + 1) mr c, runningEvent c,
          systemErrorEvent m c],
        fs := cleanup env (aPrev + 1) (fs ++ [aPrev + 1]), spawns := 0,
        createdPaths := [aPrev + 1], fixCalls := [] } := by
  simp [execLoop, hw, hsp]

theorem step_success {J : Type} (env : Env J) (mr f aPrev : Nat) (c : String)
    (hist : List HistEntry) (fs : List Nat)
    (hw : env.write (aPrev + 1) = WriteOutcome.ok)
    (hsp : env.spawn (aPrev + 1) = none)
    (h0 : (env.run (aPrev + 1)).exitCode = 0) :
    execLoop env mr (f + 1) aPrev c hist fs =
      { events := (attemptEvent (aPrev + 1) mr c :: runningEvent c ::
          (muxOf env (aPrev + 1)).events) ++
          [successEvent env.jsonLoads (muxOf env (aPrev + 1)) c],
        fs := cleanup env (aPrev + 1) (fs ++ [aPrev + 1]), spawns := 1,
        createdPaths := [aPrev + 1], fixCalls := [] } := by
  simp [execLoop, hw, hsp, h0, muxOf]

theorem step_exhaust {J : Type} (env : Env J) (mr f aPrev : Nat) (c : String)
    (hist : List HistEntry) (fs : List Nat)
    (hw : env.write (aPrev + 1) = WriteOutcome.ok)
    (hsp : env.spawn (aPrev + 1) = none)
    (hx : (env.run (aPrev + 1)).exitCode ≠ 0)
    (hgt : ¬ aPrev + 1 ≤ mr) :
    execLoop env mr (f + 1) aPrev c hist fs =
      { events := failEvents env (aPrev + 1) mr c ++
          [maxRetriesEvent (stdoutStr env (aPrev + 1)) (stderrStr env (aPrev + 1)) c],
        fs := cleanup env (aPrev + 1) (fs ++ [aPrev + 1]), spawns := 1,
        createdPaths := [aPrev + 1], fixCalls := [] } := by
  simp [execLoop, hw, hsp, hx, hgt, failEvents, muxOf, stdoutStr, stderrStr]

theorem step_fixOk {J : Type} (env : Env J) (mr f aPrev : Nat) (c : String)
    (hist : List HistEntry) (fs : List Nat) {newCode : String}
    (hw : env.write (aPrev + 1) = WriteOutcome.ok)
    (hsp : env.spawn (aPrev + 1) = none)
    (hx : (env.run (aPrev + 1)).exitCode ≠ 0)
    (hle : aPrev + 1 ≤ mr)
    (hf : env.fix (aPrev + 1) = Except.ok newCode)
    (rest : ExecResult J)
    (hrest : rest = execLoop env mr f (aPrev + 1) newCode
      (hist ++ [histEntryOf env (aPrev + 1)])
      (cleanup env (aPrev + 1) (fs ++ [aPrev + 1]))) :
    execLoop env mr (f + 1) aPrev c hist fs =
      { events := failEvents env (aPrev + 1) mr c ++ [fixingEvent] ++
          List.replicate (env.fixHeartbeats (aPrev + 1)) fixHeartbeatEvent ++
          [fixAppliedEvent newCode] ++ rest.events,
        fs := rest.fs, spawns := 1 + rest.spawns,
        createdPaths := (aPrev + 1) :: rest.createdPaths,
        fixCalls := (hist ++ [histEntryOf env (aPrev + 1)]) :: rest.fixCalls } := by
  subst hrest
  simp [execLoop, hw, hsp, hx, hle, hf, failEvents, muxOf, stdoutStr, stderrStr,
    histEntryOf]

theorem step_fixErr {J : Type} (env : Env J) (mr f aPrev : Nat) (c : String)
    (hist : List HistEntry) (fs : List Nat) {m : String}
    (hw : env.write (aPrev + 1) = WriteOutcome.ok)
    (hsp : env.spawn (aPrev + 1) = none)
    (hx : (env.run (aPrev + 1)).exitCode ≠ 0)
    (hle : aPrev + 1 ≤ mr)
    (hf : env.fix (aPrev + 1) = Except.error m)
    (rest : ExecResult J)
    (hrest : rest = execLoop env mr f (aPrev + 1) c
      (hist ++ [histEntryOf env (aPrev + 1)])
      (cleanup env (aPrev + 1) (fs ++ [aPrev + 1]))) :
    execLoop env mr (f + 1) aPrev c hist fs =
      { events := failEvents env (aPrev + 1) mr c ++ [fixingEvent] ++
          List.replicate (env.fixHeartbeats (aPrev + 1)) fixHeartbeatEvent ++
          [fixFailedEvent m] ++ rest.events,
        fs := rest.fs, spawns := 1 + rest.spawns,
        createdPaths := (aPrev + 1) :: rest.createdPaths,
        fixCalls := (hist ++ [histEntryOf env (aPrev + 1)]) :: rest.fixCalls } := by
  subst hrest
  simp [execLoop, hw, hsp, hx, hle, hf, failEvents, muxOf, stdoutStr, stderrStr,
    histEntryOf]

theorem step_fuelZero {J : Type} (env : Env J) (mr aPrev : Nat) (c : String)
    (hist : List HistEntry) (fs : List Nat) :
    execLoop env mr 0 aPrev c hist fs =
      { events := [fallbackEvent c], fs := fs, spawns := 0,
        createdPaths := [], fixCalls := [] } := rfl

/-! ## Facts about the per-iteration events -/

theorem successEvent_status {J : Type} (jsonLoads : String → Option J)
    (mux : MuxState J) (c : String) :
    (successEvent jsonLoads mux c).status = Status.success := by
  unfold successEvent
  cases h : reportOf jsonLoads mux.stdoutChunks <;> simp [h]

theorem successEvent_report {J : Type} (jsonLoads : String → Option J)
    (mux : MuxState J) (c : String) :
    (successEvent jsonLoads mux c).report = reportOf jsonLoads mux.stdoutChunks := by
  unfold successEvent
  cases h : reportOf jsonLoads mux.stdoutChunks <;> simp [h]

theorem lastStatus_concat {J : Type} (E : List (Event J)) (e : Event J) :
    lastStatus (E ++ [e]) = some e.status := by
  simp [lastStatus, List.getLast?_concat]

theorem lastStatus_ne_nil {J : Type} {E : List (Event J)} {s : Status}
    (h : lastStatus E = some s) : E ≠ [] := by
  intro hnil
  rw [hnil] at h
  simp [lastStatus] at h

theorem lastStatus_append {J : Type} (E₁ : List (Event J)) {E₂ : List (Event J)}
    (h : E₂ ≠ []) : lastStatus (E₁ ++ E₂) = lastStatus E₂ := by
  simp [lastStatus, List.getLast?_append_of_ne_nil _ h]

theorem countStatus_muxOf {J : Type} (env : Env J) (a : Nat) {s : Status}
    (hs : s ≠ Status.info) : countStatus s (muxOf env a).events = 0 := by
  refine countStatus_eq_zero ?_
  intro e he
  have hinfo : e.status = Status.info :=
    mux_events_info env.jsonLoads (env.run a).items e he
  rw [hinfo]
  exact fun h => hs h.symm

theorem countStatus_failEvents_finalError {J : Type} (env : Env J)
    (a mr : Nat) (c : String) :
    countStatus Status.finalError (failEvents env a mr c) = 0 := by
  have hmux := countStatus_muxOf env a (s := Status.finalError) (by decide)
  simp [failEvents, countStatus_append, countStatus_cons, countStatus_nil,
    attemptEvent, runningEvent, analyzingEvent, errorEvent, diagHeartbeatEvent,
    countStatus_replicate, hmux]

/-! ## Claim C1 -/

/-- Claim C1, counterexample: a job whose child exits 0 having printed no
output line at all. The claim says the `success` event's report is then
null; but the code substitutes the literal `"{}"` for the missing last line,
so the report is the (non-null) empty JSON document — here `some 0` under
the concrete parser, with message `"Execution successful"`. -/
theorem c1_counterexample :
    (executeCode envBase "c" 2).events =
      [attemptEvent 1 2 "c", runningEvent "c",
        { status := Status.success, message := "Execution successful",
          report := some 0, code := some "c",
          stdout := some "", stderr := some "" }] ∧
    ∀ e ∈ (executeCode envBase "c" 2).events,
      e.status = Status.success → e.report ≠ none := by
  constructor
  · rfl
  · decide

/-- Claim C1 (amended): for every attempt whose child process exits with
status zero (infrastructure steps succeeding), the loop emits its
multiplexed output followed by exactly one terminal `success` event and
stops; the event's report equals the result of parsing the last captured
stdout line — where the literal `"{}"` stands in when no stdout line was
captured — so a parse failure gives a null report, a parsed document
becomes the report, and an output-less run gets the empty JSON object, not
null. -/
theorem c1_report_amended {J : Type} (env : Env J) (mr fuel aPrev : Nat)
    (c : String) (hist : List HistEntry) (fs : List Nat)
    (hw : env.write (aPrev + 1) = WriteOutcome.ok)
    (hsp : env.spawn (aPrev + 1) = none)
    (h0 : (env.run (aPrev + 1)).exitCode = 0) :
    (execLoop env mr (fuel + 1) aPrev c hist fs).events =
      (attemptEvent (aPrev + 1) mr c :: runningEvent c ::
        (muxOf env (aPrev + 1)).events) ++
        [successEvent env.jsonLoads (muxOf env (aPrev + 1)) c] ∧
    (successEvent env.jsonLoads (muxOf env (aPrev + 1)) c).report =
      reportOf env.jsonLoads (muxOf env (aPrev + 1)).stdoutChunks ∧
    countStatus Status.success (execLoop env mr (fuel + 1) aPrev c hist fs).events = 1 ∧
    countStatus Status.finalError (execLoop env mr (fuel + 1) aPrev c hist fs).events = 0 ∧
    lastStatus (execLoop env mr (fuel + 1) aPrev c hist fs).events =
      some Status.success := by
  have hstep := step_success env mr fuel aPrev c hist fs hw hsp h0
  have hmuxS := countStatus_muxOf env (aPrev + 1) (s := Status.success) (by decide)
  have hmuxF := countStatus_muxOf env (aPrev + 1) (s := Status.finalError) (by decide)
  have hev : (execLoop env mr (fuel + 1) aPrev c hist fs).events =
      (attemptEvent (aPrev + 1) mr c :: runningEvent c ::
        (muxOf env (aPrev + 1)).events) ++
        [successEvent env.jsonLoads (muxOf env (aPrev + 1)) c] := by
    rw [hstep]
  refine ⟨hev, successEvent_report _ _ _, ?_, ?_, ?_⟩
  · rw [hev]
    simp [countStatus_append, countStatus_cons, countStatus_nil, attemptEvent,
      runningEvent, successEvent_status, hmuxS]
  · rw [hev]
    simp [countStatus_append, countStatus_cons, countStatus_nil, attemptEvent,
      runningEvent, successEvent_status, hmuxF]
  · rw [hev, lastStatus_concat, successEvent_status]

/-- Witness for C1 (amended) on `envBase` (first attempt exits 0). -/
theorem c1_report_amended_witness :
    envBase.write 1 = WriteOutcome.ok ∧ envBase.spawn 1 = none ∧
    (envBase.run 1).exitCode = 0 ∧
    ((successEvent envBase.jsonLoads (muxOf envBase 1) "c").report =
      reportOf envBase.jsonLoads (muxOf envBase 1).stdoutChunks ∧
     countStatus Status.success (execLoop envBase 2 3 0 "c" [] []).events = 1 ∧
     lastStatus (execLoop envBase 2 3 0 "c" [] []).events = some Status.success) :=
  ⟨rfl, rfl, rfl,
    (c1_report_amended envBase 2 2 0 "c" [] [] rfl rfl rfl).2.1,
    (c1_report_amended envBase 2 2 0 "c" [] [] rfl rfl rfl).2.2.1,
    (c1_report_amended envBase 2 2 0 "c" [] [] rfl rfl rfl).2.2.2.2⟩

/-! ## Claim C2 -/

theorem c2_loop {J : Type} (env : Env J) (mr : Nat)
    (hw : ∀ a, env.write a = WriteOutcome.ok)
    (hsp : ∀ a, env.spawn a = none)
    (hx : ∀ a, (env.run a).exitCode ≠ 0) :
    ∀ fuel aPrev c hist fs, aPrev + fuel = mr + 1 →
      (execLoop env mr fuel aPrev c hist fs).spawns = fuel ∧
      countStatus Status.finalError (execLoop env mr fuel aPrev c hist fs).events = 1 ∧
      lastStatus (execLoop env mr fuel aPrev c hist fs).events =
        some Status.finalError := by
  intro fuel
  induction fuel with
  | zero =>
      intro aPrev c hist fs hsum
      rw [step_fuelZero]
      refine ⟨rfl, ?_, ?_⟩
      · simp [countStatus_cons, countStatus_nil, fallbackEvent]
      · simp [lastStatus, fallbackEvent]
  | succ f ih =>
      intro aPrev c hist fs hsum
      by_cases hle : aPrev + 1 ≤ mr
      · cases hf : env.fix (aPrev + 1) with
        | ok newCode =>
            have hstep := step_fixOk env mr f aPrev c hist fs (hw _) (hsp _)
              (hx _) hle hf _ rfl
            have hih := ih (aPrev + 1) newCode
              (hist ++ [histEntryOf env (aPrev + 1)])
              (cleanup env (aPrev + 1) (fs ++ [aPrev + 1])) (by omega)
            rw [hstep]
            refine ⟨by simp [hih.1]; omega, ?_, ?_⟩
            · simp [countStatus_append, countStatus_cons, countStatus_nil,
                countStatus_failEvents_finalError, fixingEvent, fixAppliedEvent,
                fixHeartbeatEvent, countStatus_replicate, hih.2.1]
            · have hne := lastStatus_ne_nil hih.2.2
              simp only []
              rw [lastStatus_append _ hne]
              exact hih.2.2
        | error m =>
            have hstep := step_fixErr env mr f aPrev c hist fs (hw _) (hsp _)
              (hx _) hle hf _ rfl
            have hih := ih (aPrev + 1) c
              (hist ++ [histEntryOf env (aPrev + 1)])
              (cleanup env (aPrev + 1) (fs ++ [aPrev + 1])) (by omega)
            rw [hstep]
            refine ⟨by simp [hih.1]; omega, ?_, ?_⟩
            · simp [countStatus_append, countStatus_cons, countStatus_nil,
                countStatus_failEvents_finalError, fixingEvent, fixFailedEvent,
                fixHeartbeatEvent, countStatus_replicate, hih.2.1]
            · have hne := lastStatus_ne_nil hih.2.2
              simp only []
              rw [lastStatus_append _ hne]
              exact hih.2.2
      · have hf0 : f = 0 := by omega
        subst hf0
        rw [step_exhaust env mr 0 aPrev c hist fs (hw _) (hsp _) (hx _) hle]
        refine ⟨rfl, ?_, ?_⟩
        · simp [countStatus_append, countStatus_failEvents_finalError,
            countStatus_cons, countStatus_nil, maxRetriesEvent]
        · simp [lastStatus_concat, maxRetriesEvent]

/-- Claim C2: for a job whose child exits non-zero on every attempt (all
infrastructure steps succeeding), `execute_code` with parameter
`max_retries` spawns exactly `max_retries + 1` child processes — the code's
maximum-attempts bound `N` is `max_retries + 1`, as its own attempt banner
`attempt/{max_retries + 1}` states — and the event sequence terminates with
exactly one `final_error` event. -/
theorem c2_attempt_bound {J : Type} (env : Env J) (c : String) (mr : Nat)
    (h0 : env.startupError = none)
    (hw : ∀ a, env.write a = WriteOutcome.ok)
    (hsp : ∀ a, env.spawn a = none)
    (hx : ∀ a, (env.run a).exitCode ≠ 0) :
    (executeCode env c mr).spawns = mr + 1 ∧
    countStatus Status.finalError (executeCode env c mr).events = 1 ∧
    lastStatus (executeCode env c mr).events = some Status.finalError := by
  unfold executeCode
  rw [h0]
  exact c2_loop env mr hw hsp hx (mr + 1) 0 c [] [] (by omega)

/-! ## Claim C3 -/

theorem execLoop_endsTerminal {J : Type} (env : Env J) (mr : Nat) :
    ∀ fuel aPrev c hist fs,
      endsTerminal (execLoop env mr fuel aPrev c hist fs).events = true := by
  intro fuel
  induction fuel with
  | zero =>
      intro aPrev c hist fs
      rw [step_fuelZero]
      simp [endsTerminal, fallbackEvent]
  | succ f ih =>
      intro aPrev c hist fs
      cases hw : env.write (aPrev + 1) with
      | failNoFile m =>
          rw [step_writeFail env mr f aPrev c hist fs hw]
          simp [endsTerminal, writeFailEvent]
      | failAfterCreate m =>
          rw [step_writeLeak env mr f aPrev c hist fs hw]
          simp [endsTerminal, writeFailEvent]
      | ok =>
          cases hsp : env.spawn (aPrev + 1) with
          | some m =>
              rw [step_spawnFail env mr f aPrev c hist fs hw hsp]
              simp [endsTerminal, systemErrorEvent]
          | none =>
              by_cases h0 : (env.run (aPrev + 1)).exitCode = 0
              · rw [step_success env mr f aPrev c hist fs hw hsp h0]
                exact endsTerminal_concat _ (Or.inl (successEvent_status _ _ _))
              · by_cases hle : aPrev + 1 ≤ mr
                · cases hf : env.fix (aPrev + 1) with
                  | ok newCode =>
                      rw [step_fixOk env mr f aPrev c hist fs hw hsp h0 hle hf _ rfl]
                      exact endsTerminal_append _ (ih (aPrev + 1) newCode _ _)
                  | error m =>
                      rw [step_fixErr env mr f aPrev c hist fs hw hsp h0 hle hf _ rfl]
                      exact endsTerminal_append _ (ih (aPrev + 1) c _ _)
                · rw [step_exhaust env mr f aPrev c hist fs hw hsp h0 hle]
                  exact endsTerminal_concat _ (Or.inr rfl)

/-- Claim C3: (i) for every environment — every diagnoser/repairer
behavior including raised exceptions, every run outcome, every write/spawn
fault — the event sequence of `execute_code` is non-empty and ends with a
well-formed terminal event (`success` or `final_error`); (ii) a fault while
writing the script file terminates the job immediately with `final_error`,
with no diagnose/repair cycle (no `fix_code` call) and no further attempt
or spawn; (iii) likewise for a fault while spawning the child process. -/
theorem c3_terminal (J : Type) :
    (∀ (env : Env J) (c : String) (mr : Nat),
      endsTerminal (executeCode env c mr).events = true) ∧
    (∀ (env : Env J) (mr f aPrev : Nat) (c : String) (hist : List HistEntry)
        (fs : List Nat) (m : String),
      env.write (aPrev + 1) = WriteOutcome.failNoFile m →
      (execLoop env mr (f + 1) aPrev c hist fs).events =
        [attemptEvent (aPrev + 1) mr c, writeFailEvent m] ∧
      (execLoop env mr (f + 1) aPrev c hist fs).spawns = 0 ∧
      (execLoop env mr (f + 1) aPrev c hist fs).fixCalls = []) ∧
    (∀ (env : Env J) (mr f aPrev : Nat) (c : String) (hist : List HistEntry)
        (fs : List Nat) (m : String),
      env.write (aPrev + 1) = WriteOutcome.failAfterCreate m →
      (execLoop env mr (f + 1) aPrev c hist fs).events =
        [attemptEvent (aPrev + 1) mr c, writeFailEvent m] ∧
      (execLoop env mr (f + 1) aPrev c hist fs).spawns = 0 ∧
      (execLoop env mr (f + 1) aPrev c hist fs).fixCalls = []) ∧
    (∀ (env : Env J) (mr f aPrev : Nat) (c : String) (hist : List HistEntry)
        (fs : List Nat) (m : String),
      env.write (aPrev + 1) = WriteOutcome.ok →
      env.spawn (aPrev + 1) = some m →
      (execLoop env mr (f + 1) aPrev c hist fs).events =
        [attemptEvent (aPrev + 1) mr c, runningEvent c, systemErrorEvent m c] ∧
      (execLoop env mr (f + 1) aPrev c hist fs).spawns = 0 ∧
      (execLoop env mr (f + 1) aPrev c hist fs).fixCalls = []) := by
  refine ⟨?_, ?_, ?_, ?_⟩
  · intro env c mr
    unfold executeCode
    cases h : env.startupError with
    | some m => simp [endsTerminal, startupFailEvent]
    | none => exact execLoop_endsTerminal env mr (mr + 1) 0 c [] []
  · intro env mr f aPrev c hist fs m hw
    rw [step_writeFail env mr f aPrev c hist fs hw]
    exact ⟨rfl, rfl, rfl⟩
  · intro env mr f aPrev c hist fs m hw
    rw [step_writeLeak env mr f aPrev c hist fs hw]
    exact ⟨rfl, rfl, rfl⟩
  · intro env mr f aPrev c hist fs m hw hsp
    rw [step_spawnFail env mr f aPrev c hist fs hw hsp]
    exact ⟨rfl, rfl, rfl⟩

/-- Witness for C3: the terminal guarantee on `envBase`, and the immediate
`final_error` on `envWriteFail`, whose write raises on every attempt. -/
theorem c3_terminal_witness :
    endsTerminal (executeCode envBase "c" 2).events = true ∧
    envWriteFail.write 1 = WriteOutcome.failNoFile "disk error" ∧
    (execLoop envWriteFail 2 3 0 "c" [] []).events =
      [attemptEvent 1 2 "c", writeFailEvent "disk error"] ∧
    (execLoop envWriteFail 2 3 0 "c" [] []).fixCalls = [] :=
  ⟨(c3_terminal Nat).1 envBase "c" 2, rfl,
    ((c3_terminal Nat).2.1 envWriteFail 2 2 0 "c" [] [] "disk error" rfl).1,
    ((c3_terminal Nat).2.1 envWriteFail 2 2 0 "c" [] [] "disk error" rfl).2.2⟩

/-! ## Claim C4 -/

/-- Claim C4: if after a failed attempt the repairer call `fix_code` raises,
the loop emits an `error` event whose message describes the repair failure
("Auto-fixer failed: ..."), and then proceeds to the next iteration with the
byte-identical unchanged script and the attempt counter incremented — the
recursive call runs attempt `aPrev + 2` on the same `c` with one unit of the
retry bound consumed — so the attempt bound is still consumed and the job
cannot loop forever. -/
theorem c4_repair_failure {J : Type} (env : Env J) (mr f aPrev : Nat)
    (c : String) (hist : List HistEntry) (fs : List Nat) (m : String)
    (hw : env.write (aPrev + 1) = WriteOutcome.ok)
    (hsp : env.spawn (aPrev + 1) = none)
    (hx : (env.run (aPrev + 1)).exitCode ≠ 0)
    (hle : aPrev + 1 ≤ mr)
    (hf : env.fix (aPrev + 1) = Except.error m) :
    (execLoop env mr (f + 1) aPrev c hist fs).events =
      failEvents env (aPrev + 1) mr c ++ [fixingEvent] ++
        List.replicate (env.fixHeartbeats (aPrev + 1)) fixHeartbeatEvent ++
        [fixFailedEvent m] ++
        (execLoop env mr f (aPrev + 1) c
          (hist ++ [histEntryOf env (aPrev + 1)])
          (cleanup env (aPrev + 1) (fs ++ [aPrev + 1]))).events ∧
    (fixFailedEvent m : Event J).status = Status.error ∧
    (fixFailedEvent m : Event J).message =
      "Auto-fixer failed: " ++ m ++ ". Retrying with original code..." ∧
    (execLoop env mr (f + 1) aPrev c hist fs).spawns =
      1 + (execLoop env mr f (aPrev + 1) c
        (hist ++ [histEntryOf env (aPrev + 1)])
        (cleanup env (aPrev + 1) (fs ++ [aPrev + 1]))).spawns := by
  have hstep := step_fixErr env mr f aPrev c hist fs hw hsp hx hle hf _ rfl
  exact ⟨by rw [hstep], rfl, rfl, by rw [hstep]⟩

/-- Witness for C4 on `envFixFail` (always fails, repairer always raises)
with `max_retries = 1`, first attempt. -/
theorem c4_repair_failure_witness :
    envFixFail.write 1 = WriteOutcome.ok ∧ envFixFail.spawn 1 = none ∧
    (envFixFail.run 1).exitCode ≠ 0 ∧ 0 + 1 ≤ 1 ∧
    envFixFail.fix 1 = Except.error "llm down" ∧
    (fixFailedEvent "llm down" : Event Nat).status = Status.error ∧
    (fixFailedEvent "llm down" : Event Nat).message =
      "Auto-fixer failed: " ++ "llm down" ++ ". Retrying with original code..." :=
  ⟨rfl, rfl, one_ne_zero, Nat.le_refl 1, rfl,
    (c4_repair_failure envFixFail 1 1 0 "c" [] [] "llm down" rfl rfl one_ne_zero
      (Nat.le_refl 1) rfl).2.1,
    (c4_repair_failure envFixFail 1 1 0 "c" [] [] "llm down" rfl rfl one_ne_zero
      (Nat.le_refl 1) rfl).2.2.1⟩

/-! ## Claim C5 -/

theorem execLoop_duration {J : Type} (env : Env J) (d : Nat → Nat) (mr : Nat) :
    ∀ fuel aPrev c hist fs,
      execLoop { env with duration := d } mr fuel aPrev c hist fs =
        execLoop env mr fuel aPrev c hist fs := by
  intro fuel
  induction fuel with
  | zero => intro aPrev c hist fs; rfl
  | succ f ih =>
      intro aPrev c hist fs
      cases hw : env.write (aPrev + 1) with
      | failNoFile m =>
          rw [step_writeFail env mr f aPrev c hist fs hw,
            step_writeFail { env with duration := d } mr f aPrev c hist fs hw]
      | failAfterCreate m =>
          rw [step_writeLeak env mr f aPrev c hist fs hw,
            step_writeLeak { env with duration := d } mr f aPrev c hist fs hw]
      | ok =>
          cases hsp : env.spawn (aPrev + 1) with
          | some m =>
              rw [step_spawnFail env mr f aPrev c hist fs hw hsp,
                step_spawnFail { env with duration := d } mr f aPrev c hist fs hw hsp]
              rfl
          | none =>
              by_cases h0 : (env.run (aPrev + 1)).exitCode = 0
              · rw [step_success env mr f aPrev c hist fs hw hsp h0,
                  step_success { env with duration := d } mr f aPrev c hist fs hw hsp h0]
                rfl
              · by_cases hle : aPrev + 1 ≤ mr
                · cases hf : env.fix (aPrev + 1) with
                  | ok newCode =>
                      rw [step_fixOk env mr f aPrev c hist fs hw hsp h0 hle hf _ rfl,
                        step_fixOk { env with duration := d } mr f aPrev c hist fs hw
                          hsp h0 hle hf _ rfl, ih]
                      rfl
                  | error m =>
                      rw [step_fixErr env mr f aPrev c hist fs hw hsp h0 hle hf _ rfl,
                        step_fixErr { env with duration := d } mr f aPrev c hist fs hw
                          hsp h0 hle hf _ rfl, ih]
                      rfl
                · rw [step_exhaust env mr f aPrev c hist fs hw hsp h0 hle,
                    step_exhaust { env with duration := d } mr f aPrev c hist fs hw
                      hsp h0 hle]
                  rfl

/-- Claim C5 (amended): there is no wall-clock timeout on the child process:
`execute_code` awaits process exit unconditionally, and the run's wall-clock
duration has no effect on the produced event sequence or on any other
observable of the job — the outcome is invariant under arbitrary
reassignment of every attempt's duration, so a long-running script is never
forcibly terminated, never becomes a failed attempt, and no timeout notice
exists; a script that never exited would simply never yield a terminal
event. -/
theorem c5_no_timeout {J : Type} (env : Env J) (d : Nat → Nat) (c : String)
    (mr : Nat) :
    executeCode { env with duration := d } c mr = executeCode env c mr := by
  cases env with
  | mk jl se w sp r dur dh dg fh fx rm =>
      unfold executeCode
      cases se with
      | some m => rfl
      | none =>
          exact execLoop_duration (Env.mk jl none w sp r dur dh dg fh fx rm) d mr
            (mr + 1) 0 c [] []

/-- Claim C5, counterexample: `envSlow`'s only run takes `10^9` time units,
far beyond any configured limit, yet the job is neither forcibly terminated
nor treated as a failed attempt: the event sequence is the ordinary
`success` sequence, contains no `error` or `final_error` event, and is
bit-identical to the outcome of the same job with duration 0 — no timeout
path exists in `execute_code`. -/
theorem c5_counterexample :
    (executeCode envSlow "c" 0).events =
      [attemptEvent 1 0 "c", runningEvent "c",
        { status := Status.success, message := "Execution successful",
          report := some 0, code := some "c",
          stdout := some "", stderr := some "" }] ∧
    countStatus Status.error (executeCode envSlow "c" 0).events = 0 ∧
    countStatus Status.finalError (executeCode envSlow "c" 0).events = 0 ∧
    executeCode envSlow "c" 0 = executeCode envBase "c" 0 :=
  ⟨rfl, by decide, by decide, by decide⟩

/-! ## Claim C7 -/

theorem attemptRange_length : ∀ n, (attemptRange n).length = n := by
  intro n
  induction n with
  | zero => rfl
  | succ k ih => simp [attemptRange, ih]

/-- `recentHistory` in closed form: the last (up to) 3 entries strictly
before the final one. -/
theorem recentHistory_eq (h : List HistEntry) :
    recentHistory h = h.dropLast.drop (h.dropLast.length - 3) := by
  unfold recentHistory previousAttempts
  by_cases h1 : 1 < h.length
  · rw [if_pos h1]
    show (if 3 < h.dropLast.length then h.dropLast.drop (h.dropLast.length - 3)
      else h.dropLast) = _
    by_cases h3 : 3 < h.dropLast.length
    · rw [if_pos h3]
    · rw [if_neg h3]
      have hz : h.dropLast.length - 3 = 0 := by omega
      rw [hz, List.drop_zero]
  · rw [if_neg h1]
    have hlen := List.length_dropLast h
    have hl : h.dropLast.length = 0 := by omega
    have h0 : h.dropLast = [] := List.eq_nil_of_length_eq_zero hl
    rw [h0]
    simp

theorem c7_fixCalls_inv {J : Type} (env : Env J) (mr : Nat)
    (hw : ∀ a, env.write a = WriteOutcome.ok)
    (hsp : ∀ a, env.spawn a = none)
    (hx : ∀ a, (env.run a).exitCode ≠ 0) :
    ∀ fuel aPrev c hist fs,
      hist.map HistEntry.attempt = attemptRange aPrev →
      ∀ k, k < (execLoop env mr fuel aPrev c hist fs).fixCalls.length →
        ((execLoop env mr fuel aPrev c hist fs).fixCalls.getD k []).map
          HistEntry.attempt = attemptRange (aPrev + k + 1) := by
  intro fuel
  induction fuel with
  | zero =>
      intro aPrev c hist fs hinv k hk
      rw [step_fuelZero] at hk
      simp at hk
  | succ f ih =>
      intro aPrev c hist fs hinv k hk
      have hinv2 : (hist ++ [histEntryOf env (aPrev + 1)]).map HistEntry.attempt =
          attemptRange (aPrev + 1) := by
        simp [hinv, histEntryOf, attemptRange]
      by_cases hle : aPrev + 1 ≤ mr
      · cases hf : env.fix (aPrev + 1) with
        | ok newCode =>
            have hstep := step_fixOk env mr f aPrev c hist fs (hw _) (hsp _)
              (hx _) hle hf _ rfl
            rw [hstep] at hk ⊢
            cases k with
            | zero => simpa using hinv2
            | succ k =>
                simp only [List.getD_cons_succ]
                have hk2 : k < (execLoop env mr f (aPrev + 1) newCode
                    (hist ++ [histEntryOf env (aPrev + 1)])
                    (cleanup env (aPrev + 1) (fs ++ [aPrev + 1]))).fixCalls.length := by
                  simpa using hk
                have hres := ih (aPrev + 1) newCode
                  (hist ++ [histEntryOf env (aPrev + 1)])
                  (cleanup env (aPrev + 1) (fs ++ [aPrev + 1])) hinv2 k hk2
                have harith : aPrev + 1 + k + 1 = aPrev + (k + 1) + 1 := by omega
                rw [harith] at hres
                exact hres
        | error m =>
            have hstep := step_fixErr env mr f aPrev c hist fs (hw _) (hsp _)
              (hx _) hle hf _ rfl
            rw [hstep] at hk ⊢
            cases k with
            | zero => simpa using hinv2
            | succ k =>
                simp only [List.getD_cons_succ]
                have hk2 : k < (execLoop env mr f (aPrev + 1) c
                    (hist ++ [histEntryOf env (aPrev + 1)])
                    (cleanup env (aPrev + 1) (fs ++ [aPrev + 1]))).fixCalls.length := by
                  simpa using hk
                have hres := ih (aPrev + 1) c
                  (hist ++ [histEntryOf env (aPrev + 1)])
                  (cleanup env (aPrev + 1) (fs ++ [aPrev + 1])) hinv2 k hk2
                have harith : aPrev + 1 + k + 1 = aPrev + (k + 1) + 1 := by omega
                rw [harith] at hres
                exact hres
      · have hstep := step_exhaust env mr f aPrev c hist fs (hw _) (hsp _)
          (hx _) hle
        rw [hstep] at hk
        simp at hk

/-- Claim C7 (amended): in a job whose attempts all fail (infrastructure
succeeding), the `error_history` list supplied at the k-th (1-based) repair
request consists of the entries of attempts `1..k` in order — so it is
append-only, ordered, and INCLUDES the in-flight attempt as its last entry;
`fix_code` itself then excludes that last entry and places only the most
recent `min(k − 1, 3)` strictly-earlier failed attempts, in order, into the
repair prompt. The prompt context therefore has length `k − 1` only while
`k − 1 ≤ 3`; beyond that it is capped at 3. -/
theorem c7_history {J : Type} (env : Env J) (c : String) (mr : Nat)
    (h0 : env.startupError = none)
    (hw : ∀ a, env.write a = WriteOutcome.ok)
    (hsp : ∀ a, env.spawn a = none)
    (hx : ∀ a, (env.run a).exitCode ≠ 0)
    (k : Nat) (hk : k < (executeCode env c mr).fixCalls.length)
    (H : List HistEntry) (hH : H = (executeCode env c mr).fixCalls.getD k []) :
    H.map HistEntry.attempt = attemptRange (k + 1) ∧
    recentHistory H = H.dropLast.drop (H.dropLast.length - 3) ∧
    (recentHistory H).map HistEntry.attempt = (attemptRange k).drop (k - 3) ∧
    (recentHistory H).length = min k 3 := by
  subst hH
  unfold executeCode at hk ⊢
  rw [h0] at hk ⊢
  have hmap := c7_fixCalls_inv env mr hw hsp hx (mr + 1) 0 c [] [] rfl k hk
  simp only [Nat.zero_add] at hmap
  set H := (execLoop env mr (mr + 1) 0 c [] []).fixCalls.getD k [] with hHdef
  have hlen : H.length = k + 1 := by
    have := congrArg List.length hmap
    simpa [attemptRange_length] using this
  have hdroplen : H.dropLast.length = k := by
    rw [List.length_dropLast, hlen]
    omega
  have hdropmap : H.dropLast.map HistEntry.attempt = attemptRange k := by
    rw [List.map_dropLast, hmap]
    show (attemptRange (k + 1)).dropLast = attemptRange k
    rw [attemptRange, List.dropLast_concat]
  refine ⟨hmap, recentHistory_eq H, ?_, ?_⟩
  · rw [recentHistory_eq H, List.map_drop, hdropmap, hdroplen]
  · rw [recentHistory_eq H, List.length_drop, hdroplen]
    omega

/-- Witness for C7 (amended) on `envFail` with `max_retries = 5`, at the
5th repair request (`k = 4` zero-based). -/
theorem c7_history_witness :
    envFail.startupError = none ∧
    (∀ a, envFail.write a = WriteOutcome.ok) ∧
    (∀ a, envFail.spawn a = none) ∧
    (∀ a, (envFail.run a).exitCode ≠ 0) ∧
    4 < (executeCode envFail "c" 5).fixCalls.length ∧
    (((executeCode envFail "c" 5).fixCalls.getD 4 []).map HistEntry.attempt =
        attemptRange (4 + 1) ∧
     (recentHistory ((executeCode envFail "c" 5).fixCalls.getD 4 [])).map
        HistEntry.attempt = (attemptRange 4).drop (4 - 3) ∧
     (recentHistory ((executeCode envFail "c" 5).fixCalls.getD 4 [])).length =
        min 4 3) := by
  have h := c7_history envFail "c" 5 rfl (fun _ => rfl) (fun _ => rfl)
    (fun _ => one_ne_zero) 4 (by decide) _ rfl
  exact ⟨rfl, fun _ => rfl, fun _ => rfl, fun _ => one_ne_zero, by decide,
    h.1, h.2.2.1, h.2.2.2⟩

/-- Claim C7, counterexample: with always-failing runs and `max_retries = 5`
there are 5 repair requests; at the 5th (`k = 5`), the history list handed
to `fix_code` has length 5 — it includes the in-flight attempt, and the
context actually included in the repair prompt (`recentHistory`) has 3
entries, not `k − 1 = 4`: `fix_code` truncates the prior attempts to the
last 3. -/
theorem c7_counterexample :
    (executeCode envFail "c" 5).fixCalls.length = 5 ∧
    ((executeCode envFail "c" 5).fixCalls.getD 4 []).length = 5 ∧
    (recentHistory ((executeCode envFail "c" 5).fixCalls.getD 4 [])).length = 3 :=
  ⟨by decide, by decide, by decide⟩

/-! ## Claim C9 -/

theorem cleanup_removes {J : Type} (env : Env J) (aPrev : Nat) (fs : List Nat)
    (hR : env.removeFails (aPrev + 1) = false)
    (hfs : ∀ p ∈ fs, p ≤ aPrev) :
    cleanup env (aPrev + 1) (fs ++ [aPrev + 1]) = fs := by
  have hnotin : (aPrev + 1) ∉ fs := by
    intro hmem
    have := hfs _ hmem
    omega
  unfold cleanup
  rw [hR]
  simp [List.erase_append_right _ hnotin]

theorem execLoop_fs {J : Type} (env : Env J) (mr : Nat)
    (hW : ∀ a m, env.write a ≠ WriteOutcome.failAfterCreate m)
    (hR : ∀ a, env.removeFails a = false) :
    ∀ fuel aPrev c hist fs, (∀ p ∈ fs, p ≤ aPrev) →
      (execLoop env mr fuel aPrev c hist fs).fs = fs ∧
      (∀ p ∈ (execLoop env mr fuel aPrev c hist fs).createdPaths, aPrev < p) ∧
      (execLoop env mr fuel aPrev c hist fs).createdPaths.Nodup := by
  intro fuel
  induction fuel with
  | zero =>
      intro aPrev c hist fs hfs
      rw [step_fuelZero]
      exact ⟨rfl, by simp, by simp⟩
  | succ f ih =>
      intro aPrev c hist fs hfs
      have hclean := cleanup_removes env aPrev fs (hR (aPrev + 1)) hfs
      cases hw : env.write (aPrev + 1) with
      | failNoFile m =>
          rw [step_writeFail env mr f aPrev c hist fs hw]
          exact ⟨rfl, by simp, by simp⟩
      | failAfterCreate m => exact absurd hw (hW _ m)
      | ok =>
          cases hsp : env.spawn (aPrev + 1) with
          | some m =>
              rw [step_spawnFail env mr f aPrev c hist fs hw hsp]
              refine ⟨hclean, ?_, by simp⟩
              intro p hp
              simp at hp
              omega
          | none =>
              by_cases h0 : (env.run (aPrev + 1)).exitCode = 0
              · rw [step_success env mr f aPrev c hist fs hw hsp h0]
                refine ⟨hclean, ?_, by simp⟩
                intro p hp
                simp at hp
                omega
              · by_cases hle : aPrev + 1 ≤ mr
                · have hfs2 : ∀ p ∈ fs, p ≤ aPrev + 1 := by
                    intro p hp
                    have := hfs p hp
                    omega
                  cases hf : env.fix (aPrev + 1) with
                  | ok newCode =>
                      have hstep := step_fixOk env mr f aPrev c hist fs hw hsp h0
                        hle hf _ rfl
                      rw [hclean] at hstep
                      rw [hstep]
                      have hih := ih (aPrev + 1) newCode
                        (hist ++ [histEntryOf env (aPrev + 1)]) fs hfs2
                      refine ⟨hih.1, ?_, ?_⟩
                      · intro p hp
                        simp only [List.mem_cons] at hp
                        rcases hp with rfl | hp
                        · omega
                        · have := hih.2.1 p hp
                          omega
                      · rw [List.nodup_cons]
                        refine ⟨?_, hih.2.2⟩
                        intro hmem
                        have := hih.2.1 _ hmem
                        omega
                  | error m =>
                      have hstep := step_fixErr env mr f aPrev c hist fs hw hsp h0
                        hle hf _ rfl
                      rw [hclean] at hstep
                      rw [hstep]
                      have hih := ih (aPrev + 1) c
                        (hist ++ [histEntryOf env (aPrev + 1)]) fs hfs2
                      refine ⟨hih.1, ?_, ?_⟩
                      · intro p hp
                        simp only [List.mem_cons] at hp
                        rcases hp with rfl | hp
                        · omega
                        · have := hih.2.1 p hp
                          omega
                      · rw [List.nodup_cons]
                        refine ⟨?_, hih.2.2⟩
                        intro hmem
                        have := hih.2.1 _ hmem
                        omega
                · rw [step_exhaust env mr f aPrev c hist fs hw hsp h0 hle]
                  refine ⟨hclean, ?_, by simp⟩
                  intro p hp
                  simp at hp
                  omega

theorem execLoop_events_removeFails {J : Type} (env : Env J) (g : Nat → Bool)
    (mr : Nat) :
    ∀ fuel aPrev c hist fs fs',
      (execLoop { env with removeFails := g } mr fuel aPrev c hist fs).events =
        (execLoop env mr fuel aPrev c hist fs').events := by
  intro fuel
  induction fuel with
  | zero => intro aPrev c hist fs fs'; rfl
  | succ f ih =>
      intro aPrev c hist fs fs'
      cases hw : env.write (aPrev + 1) with
      | failNoFile m =>
          rw [step_writeFail env mr f aPrev c hist fs' hw,
            step_writeFail { env with removeFails := g } mr f aPrev c hist fs hw]
      | failAfterCreate m =>
          rw [step_writeLeak env mr f aPrev c hist fs' hw,
            step_writeLeak { env with removeFails := g } mr f aPrev c hist fs hw]
      | ok =>
          cases hsp : env.spawn (aPrev + 1) with
          | some m =>
              rw [step_spawnFail env mr f aPrev c hist fs' hw hsp,
                step_spawnFail { env with removeFails := g } mr f aPrev c hist fs hw hsp]
          | none =>
              by_cases h0 : (env.run (aPrev + 1)).exitCode = 0
              · rw [step_success env mr f aPrev c hist fs' hw hsp h0,
                  step_success { env with removeFails := g } mr f aPrev c hist fs hw hsp h0]
                rfl
              · by_cases hle : aPrev + 1 ≤ mr
                · cases hf : env.fix (aPrev + 1) with
                  | ok newCode =>
                      rw [step_fixOk env mr f aPrev c hist fs' hw hsp h0 hle hf _ rfl,
                        step_fixOk { env with removeFails := g } mr f aPrev c hist fs
                          hw hsp h0 hle hf _ rfl]
                      simp only []
                      rw [ih (aPrev + 1) newCode
                        (hist ++ [histEntryOf { env with removeFails := g } (aPrev + 1)])
                        (cleanup { env with removeFails := g } (aPrev + 1) (fs ++ [aPrev + 1]))
                        (cleanup env (aPrev + 1) (fs' ++ [aPrev + 1]))]
                      rfl
                  | error m =>
                      rw [step_fixErr env mr f aPrev c hist fs' hw hsp h0 hle hf _ rfl,
                        step_fixErr { env with removeFails := g } mr f aPrev c hist fs
                          hw hsp h0 hle hf _ rfl]
                      simp only []
                      rw [ih (aPrev + 1) c
                        (hist ++ [histEntryOf { env with removeFails := g } (aPrev + 1)])
                        (cleanup { env with removeFails := g } (aPrev + 1) (fs ++ [aPrev + 1]))
                        (cleanup env (aPrev + 1) (fs' ++ [aPrev + 1]))]
                      rfl
                · rw [step_exhaust env mr f aPrev c hist fs' hw hsp h0 hle,
                    step_exhaust { env with removeFails := g } mr f aPrev c hist fs
                      hw hsp h0 hle]
                  rfl

/-- Claim C9 (amended): each attempt writes the script to a freshly named
per-attempt temporary file (all created paths are distinct), and — provided
the write never fails after the file was created and the deletions
themselves succeed — the guaranteed cleanup step removes each file
regardless of how the attempt ends, so after the terminal event no
per-attempt script file remains; a failing deletion is absorbed as
non-fatal, leaving the emitted event sequence unchanged (though the file
then remains). If the write raises after `NamedTemporaryFile` created the
file, that file is leaked (see the counterexample). -/
theorem c9_cleanup {J : Type} (env : Env J) (c : String) (mr : Nat)
    (g : Nat → Bool)
    (hW : ∀ a m, env.write a ≠ WriteOutcome.failAfterCreate m)
    (hR : ∀ a, env.removeFails a = false) :
    (executeCode env c mr).fs = [] ∧
    (executeCode env c mr).createdPaths.Nodup ∧
    (executeCode { env with removeFails := g } c mr).events =
      (executeCode env c mr).events := by
  cases env with
  | mk jl se w sp r dur dh dg fh fx rm =>
      have hfs := execLoop_fs (Env.mk jl se w sp r dur dh dg fh fx rm) mr hW hR
        (mr + 1) 0 c [] [] (by simp)
      unfold executeCode
      cases se with
      | some m => exact ⟨rfl, List.nodup_nil, rfl⟩
      | none =>
          exact ⟨hfs.1, hfs.2.2,
            execLoop_events_removeFails (Env.mk jl none w sp r dur dh dg fh fx rm)
              g mr (mr + 1) 0 c [] [] []⟩

/-- Witness for C9 (amended) on `envBase`, with deletions made to fail via
`g`: same events, empty final filesystem, distinct temp paths. -/
theorem c9_cleanup_witness :
    (∀ a m, envBase.write a ≠ WriteOutcome.failAfterCreate m) ∧
    (∀ a, envBase.removeFails a = false) ∧
    ((executeCode envBase "c" 2).fs = [] ∧
     (executeCode envBase "c" 2).createdPaths.Nodup ∧
     (executeCode { envBase with removeFails := fun _ => true } "c" 2).events =
       (executeCode envBase "c" 2).events) :=
  ⟨fun _ _ h => WriteOutcome.noConfusion h, fun _ => rfl,
    c9_cleanup envBase "c" 2 (fun _ => true)
      (fun _ _ h => WriteOutcome.noConfusion h) (fun _ => rfl)⟩

/-- Claim C9, counterexample: `envLeak`'s write raises after
`NamedTemporaryFile` has already created the per-attempt file
(`delete=False`). The `except` branch yields the terminal `final_error` and
returns before the `try/finally` cleanup is ever entered, so after the
terminal event the freshly created file (path 1, attempt 1) still exists on
the filesystem — contradicting "after any terminal event no per-attempt
script file remains". -/
theorem c9_counterexample :
    lastStatus (executeCode envLeak "c" 2).events = some Status.finalError ∧
    (executeCode envLeak "c" 2).createdPaths = [1] ∧
    (executeCode envLeak "c" 2).fs = [1] :=
  ⟨by decide, by decide, by decide⟩

/-- Witness for C2 on `envFail` (always exits 1) with `max_retries = 1`:
2 spawns and one terminal `final_error`. -/
theorem c2_attempt_bound_witness :
    envFail.startupError = none ∧
    (∀ a, envFail.write a = WriteOutcome.ok) ∧
    (∀ a, envFail.spawn a = none) ∧
    (∀ a, (envFail.run a).exitCode ≠ 0) ∧
    ((executeCode envFail "c" 1).spawns = 1 + 1 ∧
     countStatus Status.finalError (executeCode envFail "c" 1).events = 1 ∧
     lastStatus (executeCode envFail "c" 1).events = some Status.finalError) :=
  ⟨rfl, fun _ => rfl, fun _ => rfl, fun _ => one_ne_zero,
    c2_attempt_bound envFail "c" 1 rfl (fun _ => rfl) (fun _ => rfl)
      (fun _ => one_ne_zero)⟩

end Executor
